import Mathlib

/-!
Verification of the fastats per-record masking-statistics engine.

Shallow embedding of the two Rust source files of the repository:

* `src/lib.rs` — the library: `process_fasta_record` (filter, empty-record
  branch, single pass classifying each base, three region trackers, SHA-256
  content checksum, final assertion, `SequenceStatistics`),
  `update_mask_region`, `write_bed_record`, `ensure_full_match_regex`.
* `src/main.rs` — the binary: a parallel fan-out over records with an older
  inline copy of the classification/region logic (note: `main.rs` classifies
  lowercase `n` as both soft- and hard-masked, has no final region close,
  and its `write_bed_record` does not subtract one from the end position).

Bytes are modelled as `Nat` (the Rust code works on `u8` slices), sequences
as `List Nat`, machine counters as `Nat` (they only ever increase by one per
byte, so no overflow is reachable for list-sized inputs), and `f64` ratios as
exact rationals `ℚ` (the claims only concern exact-zero ratios and equality
of identically computed ratios, which agree between `f64` and `ℚ`).
Panics are modelled as `Except.error` values carrying exactly the data that
appears in the Rust panic message.  File writers are modelled by the list of
rows they would receive; the external `regex` engine is modelled as an
explicit matcher parameter (pattern characters → candidate name → matched).
-/

/-! ## Model of the external `sha2` crate (SHA-256, hex-encoded digest)

`lib.rs` feeds the sequence bytes one at a time into `sha2::Sha256` and
renders the digest with `format!("{:x}", ...)`.  The hash itself is external
library code; it is modelled here by a direct implementation of FIPS 180-4
SHA-256 over byte lists, producing the lowercase hex string. -/

def w32 (x : Nat) : Nat := x % 4294967296

def rotr32 (n x : Nat) : Nat := w32 (x / 2 ^ n + x % 2 ^ n * 2 ^ (32 - n))

def sha_small_sigma0 (x : Nat) : Nat := rotr32 7 x ^^^ rotr32 18 x ^^^ x / 2 ^ 3

def sha_small_sigma1 (x : Nat) : Nat := rotr32 17 x ^^^ rotr32 19 x ^^^ x / 2 ^ 10

def sha_big_sigma0 (x : Nat) : Nat := rotr32 2 x ^^^ rotr32 13 x ^^^ rotr32 22 x

def sha_big_sigma1 (x : Nat) : Nat := rotr32 6 x ^^^ rotr32 11 x ^^^ rotr32 25 x

def sha_ch (x y z : Nat) : Nat := (x &&& y) ^^^ ((x ^^^ 4294967295) &&& z)

def sha_maj (x y z : Nat) : Nat := (x &&& y) ^^^ (x &&& z) ^^^ (y &&& z)

def sha_k : List Nat :=
  [1116352408, 1899447441, 3049323471, 3921009573, 961987163, 1508970993,
   2453635748, 2870763221, 3624381080, 310598401, 607225278, 1426881987,
   1925078388, 2162078206, 2614888103, 3248222580, 3835390401, 4022224774,
   264347078, 604807628, 770255983, 1249150122, 1555081692, 1996064986,
   2554220882, 2821834349, 2952996808, 3210313671, 3336571891, 3584528711,
   113926993, 338241895, 666307205, 773529912, 1294757372, 1396182291,
   1695183700, 1986661051, 2177026350, 2456956037, 2730485921, 2820302411,
   3259730800, 3345764771, 3516065817, 3600352804, 4094571909, 275423344,
   430227734, 506948616, 659060556, 883997877, 958139571, 1322822218,
   1537002063, 1747873779, 1955562222, 2024104815, 2227730452, 2361852424,
   2428436474, 2756734187, 3204031479, 3329325298]

def sha_h0 : List Nat :=
  [1779033703, 3144134277, 1013904242, 2773480762,
   1359893119, 2600822924, 528734635, 1541459225]

structure ShaRegs where
  a : Nat
  b : Nat
  c : Nat
  d : Nat
  e : Nat
  f : Nat
  g : Nat
  h : Nat
deriving Repr, DecidableEq

def sha_round (r : ShaRegs) (kw : Nat × Nat) : ShaRegs :=
  let t1 := w32 (r.h + sha_big_sigma1 r.e + sha_ch r.e r.f r.g + kw.1 + kw.2)
  let t2 := w32 (sha_big_sigma0 r.a + sha_maj r.a r.b r.c)
  ⟨w32 (t1 + t2), r.a, r.b, r.c, w32 (r.d + t1), r.e, r.f, r.g⟩

def sha_schedule (ws : Array Nat) : Array Nat :=
  (List.range 48).foldl
    (fun w _ =>
      let t := w.size
      w.push (w32 (w.getD (t - 16) 0 + sha_small_sigma0 (w.getD (t - 15) 0) +
        w.getD (t - 7) 0 + sha_small_sigma1 (w.getD (t - 2) 0)))) ws

def sha_compress (hs : List Nat) (wordsBlock : Array Nat) : List Nat :=
  let w := sha_schedule wordsBlock
  let init : ShaRegs :=
    ⟨hs.getD 0 0, hs.getD 1 0, hs.getD 2 0, hs.getD 3 0,
     hs.getD 4 0, hs.getD 5 0, hs.getD 6 0, hs.getD 7 0⟩
  let r := (sha_k.zip w.toList).foldl sha_round init
  [w32 (hs.getD 0 0 + r.a), w32 (hs.getD 1 0 + r.b), w32 (hs.getD 2 0 + r.c),
   w32 (hs.getD 3 0 + r.d), w32 (hs.getD 4 0 + r.e), w32 (hs.getD 5 0 + r.f),
   w32 (hs.getD 6 0 + r.g), w32 (hs.getD 7 0 + r.h)]

def bytes_to_words : List Nat → List Nat
  | b0 :: b1 :: b2 :: b3 :: rest =>
    (((b0 * 256 + b1) * 256 + b2) * 256 + b3) :: bytes_to_words rest
  | _ => []

def be_bytes8 (n : Nat) : List Nat :=
  (List.range 8).map (fun i => n / 2 ^ (8 * (7 - i)) % 256)

def sha_pad (msg : List Nat) : List Nat :=
  let zeros := (120 - (msg.length + 1) % 64) % 64
  msg ++ [128] ++ List.replicate zeros 0 ++ be_bytes8 (msg.length * 8)

def chunks64 : List Nat → List (List Nat)
  | [] => []
  | a :: l => (a :: l).take 64 :: chunks64 (l.drop 63)
termination_by l => l.length
decreasing_by
  simp [List.length_drop]
  omega

def sha256_words (msg : List Nat) : List Nat :=
  (chunks64 (sha_pad msg)).foldl
    (fun hs block => sha_compress hs (Array.mk (bytes_to_words block))) sha_h0

def hex_char (n : Nat) : Char := "0123456789abcdef".toList.getD n '0'

def hex_word8 (w : Nat) : String :=
  String.mk ((List.range 8).map (fun i => hex_char (w / 16 ^ (7 - i) % 16)))

def sha256hex (msg : List Nat) : String :=
  String.join ((sha256_words msg).map hex_word8)

/-! ## Embedding of `src/lib.rs`

A BED row is modelled as `(reference sequence name, start column, end column)`
in the 0-based half-open coordinates that the `noodles_bed` writer puts on
disk: a `noodles_core::Position` (1-based) feature start `p` is written as
column `p - 1`, and a feature end `q` (1-based inclusive) is written as
column `q` (the exclusive 0-based end). -/

abbrev BedRow : Type := String × Nat × Nat

/-- Panics of `lib.rs::process_fasta_record`, carrying exactly the data that
appears in the Rust panic messages: the `Unexpected base: '{}' in sequence
'{}'.` panic at line 125 carries the base and the record name, and the
`assert!` at lines 138–143 carries the sequence length and the record name. -/
inductive ProcessPanic where
  | unexpectedBase (base : Nat) (recordName : String)
  | assertionFailed (seqLen : Nat) (recordName : String)
deriving Repr, DecidableEq

/-- Effect of one arm of the `match *base` at `lib.rs` lines 102–126.
Each arm increments `gc_counter` iff `gcInc`, and increments exactly the
counter whose `*_masking` flag it sets to `true`. -/
structure BaseEffect where
  gcInc : Bool
  nonMasking : Bool
  softMasking : Bool
  hardMasking : Bool
deriving Repr, DecidableEq

/-- The `match *base` of `lib.rs` lines 102–126: `C|G` are non-masked and GC,
`c|g` soft-masked and GC, `A|T` non-masked, `a|t` soft-masked, `n|N` both
hard-masked only, anything else panics (`none` here). -/
def classify_base (b : Nat) : Option BaseEffect :=
  if b = 'C'.toNat ∨ b = 'G'.toNat then some ⟨true, true, false, false⟩
  else if b = 'c'.toNat ∨ b = 'g'.toNat then some ⟨true, false, true, false⟩
  else if b = 'A'.toNat ∨ b = 'T'.toNat then some ⟨false, true, false, false⟩
  else if b = 'a'.toNat ∨ b = 't'.toNat then some ⟨false, false, true, false⟩
  else if b = 'n'.toNat ∨ b = 'N'.toNat then some ⟨false, false, false, true⟩
  else none

/-- Per-position non-masked tag induced by the classification. -/
def tag_non (b : Nat) : Bool :=
  match classify_base b with
  | some e => e.nonMasking
  | none => false

/-- Per-position soft-masked tag induced by the classification. -/
def tag_soft (b : Nat) : Bool :=
  match classify_base b with
  | some e => e.softMasking
  | none => false

/-- Per-position hard-masked tag induced by the classification. -/
def tag_hard (b : Nat) : Bool :=
  match classify_base b with
  | some e => e.hardMasking
  | none => false

/-- Per-position GC tag induced by the classification. -/
def tag_gc (b : Nat) : Bool :=
  match classify_base b with
  | some e => e.gcInc
  | none => false

/-- `lib.rs::ensure_full_match_regex` (lines 210–222), over the character
list of the pattern: prepend `^` and/or append `$` when missing. -/
def ensure_full_match_regex (regex : List Char) : List Char :=
  let start_ok := regex.head? = some '^'
  let end_ok := regex.getLast? = some '$'
  if start_ok ∧ end_ok then regex
  else if start_ok ∧ ¬ end_ok then regex ++ ['$']
  else if ¬ start_ok ∧ end_ok then '^' :: regex
  else '^' :: regex ++ ['$']

/-- `lib.rs::write_bed_record` (lines 176–189): feature start `start1`
(1-based) and feature end `end1 - 1` (the method is called after the end of
the region, hence the subtraction in the source) become the on-disk 0-based
half-open columns `(start1 - 1, end1 - 1)`. -/
def write_bed_record (sequence_name : String) (start1 : Nat) (end1 : Nat) : BedRow :=
  (sequence_name, start1 - 1, end1 - 1)

/-- `lib.rs::update_mask_region` (lines 191–208).  The writer is modelled by
`writer_present` (in the source the writer exists iff an output directory was
given); emitted rows are returned instead of written.  When no writer is
present the whole body is skipped, exactly as in the source. -/
def update_mask_region (region_start : Option Nat) (masking : Bool)
    (writer_present : Bool) (record_name : String) (index1 : Nat) :
    Option Nat × List BedRow :=
  if writer_present then
    if masking then
      match region_start with
      | none => (some index1, [])
      | some s => (some s, [])
    else
      match region_start with
      | some start1 => (none, [write_bed_record record_name start1 index1])
      | none => (none, [])
  else (region_start, [])

/-- The mutable loop state of `lib.rs::process_fasta_record` lines 83–92:
the four counters, the three per-category region starts, the rows each BED
writer has received so far, and the bytes the SHA-256 hasher has been fed. -/
structure PassState where
  gc_counter : Nat
  non_mask_counter : Nat
  soft_mask_counter : Nat
  hard_mask_counter : Nat
  non_region : Option Nat
  soft_region : Option Nat
  hard_region : Option Nat
  non_rows : List BedRow
  soft_rows : List BedRow
  hard_rows : List BedRow
  hashed : List Nat
deriving Repr, DecidableEq

def init_pass_state : PassState :=
  ⟨0, 0, 0, 0, none, none, none, [], [], [], []⟩

/-- The body of the `for base in sequence` loop (lines 94–131) for one base
whose classification is `e`: update the hasher, bump the counters of the set
flags (and GC), and advance the three region trackers at position `index1`. -/
def pass_step (writer_present : Bool) (record_name : String)
    (st : PassState) (index1 : Nat) (e : BaseEffect) (b : Nat) : PassState :=
  let st1 : PassState := { st with
    gc_counter := st.gc_counter + cond e.gcInc 1 0,
    non_mask_counter := st.non_mask_counter + cond e.nonMasking 1 0,
    soft_mask_counter := st.soft_mask_counter + cond e.softMasking 1 0,
    hard_mask_counter := st.hard_mask_counter + cond e.hardMasking 1 0,
    hashed := st.hashed ++ [b] }
  let non_upd := update_mask_region st1.non_region e.nonMasking writer_present record_name index1
  let soft_upd := update_mask_region st1.soft_region e.softMasking writer_present record_name index1
  let hard_upd := update_mask_region st1.hard_region e.hardMasking writer_present record_name index1
  { st1 with
    non_region := non_upd.1, non_rows := st1.non_rows ++ non_upd.2,
    soft_region := soft_upd.1, soft_rows := st1.soft_rows ++ soft_upd.2,
    hard_region := hard_upd.1, hard_rows := st1.hard_rows ++ hard_upd.2 }

/-- The `for base in sequence` loop of lines 94–131, entered with `index1`
being the 1-based position of the head of the remaining sequence.  An
unexpected base panics with the base and the record name (line 125). -/
def pass_loop (writer_present : Bool) (record_name : String) :
    PassState → Nat → List Nat → Except ProcessPanic PassState
  | st, _, [] => .ok st
  | st, index1, b :: bs =>
    match classify_base b with
    | none => .error (.unexpectedBase b record_name)
    | some e =>
      pass_loop writer_present record_name
        (pass_step writer_present record_name st index1 e b) (index1 + 1) bs

/-- `lib.rs::SequenceStatistics` (lines 17–29); the `f64` ratios are
modelled as exact rationals. -/
structure SequenceStatistics where
  sequence_name : String
  non_masked_bases : Nat
  soft_masked_bases : Nat
  hard_masked_bases : Nat
  non_masked_ratio : ℚ
  soft_masked_ratio : ℚ
  hard_masked_ratio : ℚ
  gc_content : ℚ
  sequence_length : Nat
  checksum_sha256 : String
deriving Repr, DecidableEq

/-- The full observable result of one `process_fasta_record` call: the
returned statistics plus the rows written to the three BED files. -/
structure RecordResult where
  stats : SequenceStatistics
  non_masked_rows : List BedRow
  soft_masked_rows : List BedRow
  hard_masked_rows : List BedRow
deriving Repr, DecidableEq

/-- `lib.rs::process_fasta_record` (lines 38–156).  The external `regex`
crate is modelled by the `engine` parameter (compiled pattern characters →
candidate name → `is_match`); `output_dir` is modelled by whether it is
`Some` (which is all `create_bed_writer` inspects).  Branches in source
order: non-matching names return `None`; empty sequences return the
all-zero statistics with the empty-string checksum sentinel; otherwise one
pass over the bytes, the force-close of open regions at `length + 1`
(lines 133–136), the `assert!` on the counter sum (lines 138–143, modelled
as a panic value), and the assembled statistics. -/
def process_fasta_record (engine : List Char → String → Bool)
    (output_dir : Bool) (sequence_match_regex : List Char)
    (record_name : String) (sequence : List Nat) :
    Except ProcessPanic (Option RecordResult) :=
  if engine (ensure_full_match_regex sequence_match_regex) record_name = false then
    .ok none
  else if sequence.length = 0 then
    .ok (some ⟨⟨record_name, 0, 0, 0, 0, 0, 0, 0, 0, ""⟩, [], [], []⟩)
  else
    match pass_loop output_dir record_name init_pass_state 1 sequence with
    | .error e => .error e
    | .ok st =>
      let non_fin := update_mask_region st.non_region false output_dir record_name (sequence.length + 1)
      let soft_fin := update_mask_region st.soft_region false output_dir record_name (sequence.length + 1)
      let hard_fin := update_mask_region st.hard_region false output_dir record_name (sequence.length + 1)
      if st.non_mask_counter + st.soft_mask_counter + st.hard_mask_counter = sequence.length then
        .ok (some
          { stats :=
              { sequence_name := record_name,
                non_masked_bases := st.non_mask_counter,
                soft_masked_bases := st.soft_mask_counter,
                hard_masked_bases := st.hard_mask_counter,
                non_masked_ratio := (st.non_mask_counter : ℚ) / (sequence.length : ℚ),
                soft_masked_ratio := (st.soft_mask_counter : ℚ) / (sequence.length : ℚ),
                hard_masked_ratio := (st.hard_mask_counter : ℚ) / (sequence.length : ℚ),
                gc_content := (st.gc_counter : ℚ) / (sequence.length : ℚ),
                sequence_length := sequence.length,
                checksum_sha256 := sha256hex st.hashed },
            non_masked_rows := st.non_rows ++ non_fin.2,
            soft_masked_rows := st.soft_rows ++ soft_fin.2,
            hard_masked_rows := st.hard_rows ++ hard_fin.2 })
      else .error (.assertionFailed sequence.length record_name)

/-- `lib.rs::process_fasta` (lines 31–36): the curried per-record closure. -/
def process_fasta (engine : List Char → String → Bool) (output_dir : Bool)
    (sequence_match_regex : List Char) :
    String × List Nat → Except ProcessPanic (Option RecordResult) :=
  fun record =>
    process_fasta_record engine output_dir sequence_match_regex record.1 record.2

/-! ## Embedding of `src/main.rs`

The binary's `main` (lines 52–160) does not call the library: it carries its
own older copy of the per-record loop inside a `rayon` `par_iter().map(...)`
whose closure returns `()` and prints the per-record numbers.  Its
classification differs from the library's (`n` increments both the soft and
the hard counter, lines 111–116), its `write_bed_record` (lines 162–175)
does not subtract one from the feature end, and no region is force-closed
after the loop.  A panic inside the parallel map (`Unexpected base: '{}'`,
line 117, carrying only the base) aborts the whole `collect`. -/

/-- The only per-record panic of `main.rs` (line 117); unlike the library's
it does not mention the record name. -/
inductive MainPanic where
  | unexpectedBase (base : Nat)
deriving Repr, DecidableEq

/-- Effect of one arm of the `match *base` at `main.rs` lines 92–118; only
soft/hard flags and the GC increment exist there (no non-masked counter). -/
structure MainEffect where
  gcInc : Bool
  softMasking : Bool
  hardMasking : Bool
deriving Repr, DecidableEq

/-- The `match *base` of `main.rs` lines 92–118.  Note `N` is hard-masked
only while `n` is soft- and hard-masked simultaneously. -/
def classify_base_main (b : Nat) : Option MainEffect :=
  if b = 'C'.toNat ∨ b = 'G'.toNat then some ⟨true, false, false⟩
  else if b = 'c'.toNat ∨ b = 'g'.toNat then some ⟨true, true, false⟩
  else if b = 'A'.toNat ∨ b = 'T'.toNat then some ⟨false, false, false⟩
  else if b = 'a'.toNat ∨ b = 't'.toNat then some ⟨false, true, false⟩
  else if b = 'N'.toNat then some ⟨false, false, true⟩
  else if b = 'n'.toNat then some ⟨false, true, true⟩
  else none

/-- Per-position soft-masked tag of the `main.rs` classification. -/
def main_tag_soft (b : Nat) : Bool :=
  match classify_base_main b with
  | some e => e.softMasking
  | none => false

/-- Per-position hard-masked tag of the `main.rs` classification. -/
def main_tag_hard (b : Nat) : Bool :=
  match classify_base_main b with
  | some e => e.hardMasking
  | none => false

/-- `main.rs::write_bed_record` (lines 162–175): feature start `start1` and
feature end `end1` (no subtraction) become columns `(start1 - 1, end1)`. -/
def write_bed_record_main (sequence_name : String) (start1 : Nat) (end1 : Nat) : BedRow :=
  (sequence_name, start1 - 1, end1)

/-- The inline region-tracking blocks of `main.rs` lines 120–131 / 133–144
(the writers always exist in `main.rs`). -/
def main_update_region (region_start : Option Nat) (masking : Bool)
    (record_name : String) (index1 : Nat) : Option Nat × List BedRow :=
  if masking then
    match region_start with
    | none => (some index1, [])
    | some s => (some s, [])
  else
    match region_start with
    | some start1 => (none, [write_bed_record_main record_name start1 index1])
    | none => (none, [])

/-- The mutable loop state of `main.rs::main` lines 81–86. -/
structure MainState where
  hard_mask_counter : Nat
  soft_mask_counter : Nat
  gc_counter : Nat
  soft_region : Option Nat
  hard_region : Option Nat
  soft_rows : List BedRow
  hard_rows : List BedRow
deriving Repr, DecidableEq

def init_main_state : MainState := ⟨0, 0, 0, none, none, [], []⟩

/-- One iteration of the `for base in sequence` loop of `main.rs` lines
88–146 for a base with effect `e`. -/
def main_pass_step (record_name : String) (st : MainState) (index1 : Nat)
    (e : MainEffect) : MainState :=
  let st1 : MainState := { st with
    gc_counter := st.gc_counter + cond e.gcInc 1 0,
    soft_mask_counter := st.soft_mask_counter + cond e.softMasking 1 0,
    hard_mask_counter := st.hard_mask_counter + cond e.hardMasking 1 0 }
  let soft_upd := main_update_region st1.soft_region e.softMasking record_name index1
  let hard_upd := main_update_region st1.hard_region e.hardMasking record_name index1
  { st1 with
    soft_region := soft_upd.1, soft_rows := st1.soft_rows ++ soft_upd.2,
    hard_region := hard_upd.1, hard_rows := st1.hard_rows ++ hard_upd.2 }

/-- The `for base in sequence` loop of `main.rs` lines 88–146.  There is no
force-close after the loop in `main.rs`. -/
def main_pass_loop (record_name : String) :
    MainState → Nat → List Nat → Except MainPanic MainState
  | st, _, [] => .ok st
  | st, index1, b :: bs =>
    match classify_base_main b with
    | none => .error (.unexpectedBase b)
    | some e =>
      main_pass_loop record_name (main_pass_step record_name st index1 e) (index1 + 1) bs

/-- The closure mapped over the records in `main.rs` lines 63–156: empty
sequences are skipped with a log line, otherwise the loop runs; the closure
returns `()` (the per-record numbers are only printed, line 148–155). -/
def main_process_record (record_name : String) (sequence : List Nat) :
    Except MainPanic Unit :=
  if sequence.length = 0 then .ok ()
  else
    match main_pass_loop record_name init_main_state 1 sequence with
    | .error e => .error e
    | .ok _ => .ok ()

/-- The fan-out of `main.rs` lines 63–156: `records.par_iter().map(...)
.collect::<Vec<()>>()`.  A panic in any record's closure propagates out of
the parallel `collect` and aborts the whole run, so the collected vector
exists only when every record succeeds; scheduling cannot change that, and
the model surfaces the first failing record's panic. -/
def main_driver : List (String × List Nat) → Except MainPanic (List Unit)
  | [] => .ok []
  | r :: rs =>
    match main_process_record r.1 r.2 with
    | .error e => .error e
    | .ok u =>
      match main_driver rs with
      | .error e => .error e
      | .ok us => .ok (u :: us)

/-! ## Spec-side definitions

These follow the specification's words, for comparison against the source
embeddings above. -/

/-- Modelled from the spec: the number of positions "tagged with both
`soft_masked` and `hard_masked`" (§3, composition identity), under the
library's classification. -/
def ambiguous_count (sequence : List Nat) : Nat :=
  sequence.countP (fun b => tag_soft b && tag_hard b)

/-- Modelled from the spec: "a pattern lacking a start/end anchor has one
implicitly added" (§4.4) — `^`/`$` appended at whichever ends miss them. -/
def add_missing_anchors_spec (p : List Char) : List Char :=
  (if p.head? = some '^' then [] else ['^']) ++ p ++
    (if p.getLast? = some '$' then [] else ['$'])

mutual
/-- Modelled from the spec: the maximal runs of `true` in a tag stream,
as 1-based inclusive `(a, b)` pairs (§4.2); `runs_from i fs` lists the
maximal runs of `fs` when its head sits at position `i`. -/
def runs_from : Nat → List Bool → List (Nat × Nat)
  | _, [] => []
  | i, false :: fs => runs_from (i + 1) fs
  | i, true :: fs => in_run i (i + 1) fs

/-- Modelled from the spec: companion to `runs_from` while a run that
started at position `a` is still open and the head of `fs` sits at
position `i`. -/
def in_run : Nat → Nat → List Bool → List (Nat × Nat)
  | a, i, [] => [(a, i - 1)]
  | a, i, true :: fs => in_run a (i + 1) fs
  | a, i, false :: fs => (a, i - 1) :: runs_from (i + 1) fs
end

/-- The interval the spec assigns to a maximal run `[a, b]` (1-based
inclusive): `(a - 1, b)` in 0-based half-open coordinates, tagged with the
record name as in a BED row. -/
def run_to_bed (name : String) (p : Nat × Nat) : BedRow :=
  (name, p.1 - 1, p.2)

/-- The region tracker of the library, run standalone over a stream of tags
starting at position `i` (no finishing close). -/
def track_steps (record_name : String) :
    Option Nat → Nat → List Bool → Option Nat × List BedRow
  | rs, _, [] => (rs, [])
  | rs, i, f :: fs =>
    let u := update_mask_region rs f true record_name i
    let t := track_steps record_name u.1 (i + 1) fs
    (t.1, u.2 ++ t.2)

/-- One standalone tracker pass over a whole tag stream, including the
force-close at position `length + 1`. -/
def track_all (record_name : String) (fs : List Bool) : List BedRow :=
  let t := track_steps record_name none 1 fs
  t.2 ++ (update_mask_region t.1 false true record_name (fs.length + 1)).2

/-- Sorted/disjoint in the sense of the spec's guarantee for one category's
emitted intervals: each row ends strictly before the next begins (so rows
are in strictly increasing order and pairwise non-overlapping), and no row
is empty. -/
def bed_rows_ordered (rows : List BedRow) : Prop :=
  List.Chain' (fun p q : BedRow => p.2.2 < q.2.1) rows ∧
    ∀ r ∈ rows, r.2.1 < r.2.2

/-- Gap-separated well-formed run lists: every run `(a, b)` satisfies
`i ≤ a ≤ b` and the next run starts at least two past `b` (one untagged
position lies strictly between maximal runs). -/
def runs_ok : Nat → List (Nat × Nat) → Prop
  | _, [] => True
  | i, (a, b) :: rest => i ≤ a ∧ a ≤ b ∧ runs_ok (b + 2) rest

/-- Whether a library-processor outcome is the failure of the `assert!` at
`lib.rs` lines 138–143. -/
def is_assertion_failure : Except ProcessPanic (Option RecordResult) → Bool
  | .error (.assertionFailed _ _) => true
  | _ => false

/-- Statistics component of a processor outcome (discarding interval
output), used to compare runs that differ only in interval emission. -/
def result_stats (r : Except ProcessPanic (Option RecordResult)) :
    Except ProcessPanic (Option SequenceStatistics) :=
  r.map (Option.map RecordResult.stats)

/-- `Except` success as a Boolean. -/
def except_ok {ε α : Type} : Except ε α → Bool
  | .ok _ => true
  | .error _ => false

/-! ## Lemmas about the library classification -/

lemma tag_one (b : Nat) (h : (classify_base b).isSome = true) :
    cond (tag_non b) 1 0 + cond (tag_soft b) 1 0 + cond (tag_hard b) 1 0 = 1 ∧
      (tag_soft b && tag_hard b) = false := by
  simp only [tag_non, tag_soft, tag_hard, classify_base] at h ⊢
  split_ifs at h ⊢ <;> simp_all

lemma tag_of_classify (b : Nat) (e : BaseEffect) (h : classify_base b = some e) :
    tag_non b = e.nonMasking ∧ tag_soft b = e.softMasking ∧
      tag_hard b = e.hardMasking ∧ tag_gc b = e.gcInc := by
  simp [tag_non, tag_soft, tag_hard, tag_gc, h]

lemma tag_sum (seq : List Nat) (h : ∀ b ∈ seq, (classify_base b).isSome = true) :
    seq.countP tag_non + seq.countP tag_soft + seq.countP tag_hard = seq.length := by
  induction seq with
  | nil => simp
  | cons b bs ih =>
    have hb := (tag_one b (h b (by simp))).1
    have ihs := ih (fun x hx => h x (by simp [hx]))
    simp only [List.countP_cons, List.length_cons]
    cases hn : tag_non b <;> cases hs : tag_soft b <;> cases hh : tag_hard b <;>
      simp_all <;> omega

lemma pass_loop_counters (seq : List Nat) :
    ∀ (w : Bool) (name : String) (st st' : PassState) (i : Nat),
      pass_loop w name st i seq = .ok st' →
      st'.non_mask_counter = st.non_mask_counter + seq.countP tag_non ∧
        st'.soft_mask_counter = st.soft_mask_counter + seq.countP tag_soft ∧
        st'.hard_mask_counter = st.hard_mask_counter + seq.countP tag_hard ∧
        st'.gc_counter = st.gc_counter + seq.countP tag_gc ∧
        st'.hashed = st.hashed ++ seq ∧
        ∀ b ∈ seq, (classify_base b).isSome = true := by
  induction seq with
  | nil =>
    intro w name st st' i h
    simp only [pass_loop] at h
    cases h
    simp
  | cons b bs ih =>
    intro w name st st' i h
    simp only [pass_loop] at h
    cases hc : classify_base b with
    | none => rw [hc] at h; cases h
    | some e =>
      rw [hc] at h
      obtain ⟨h1, h2, h3, h4, h5, h6⟩ := ih w name _ st' (i + 1) h
      obtain ⟨tn, ts, th, tg⟩ := tag_of_classify b e hc
      simp only [pass_step] at h1 h2 h3 h4 h5
      refine ⟨?_, ?_, ?_, ?_, ?_, ?_⟩
      · simp only [List.countP_cons, h1, tn]; cases e.nonMasking <;> (simp; try omega)
      · simp only [List.countP_cons, h2, ts]; cases e.softMasking <;> (simp; try omega)
      · simp only [List.countP_cons, h3, th]; cases e.hardMasking <;> (simp; try omega)
      · simp only [List.countP_cons, h4, tg]; cases e.gcInc <;> (simp; try omega)
      · simp [h5]
      · intro x hx
        rcases List.mem_cons.mp hx with rfl | hmem
        · simp [hc]
        · exact h6 x hmem

lemma pass_loop_isOk (seq : List Nat) :
    ∀ (w : Bool) (name : String) (st : PassState) (i : Nat),
      (∀ b ∈ seq, (classify_base b).isSome = true) →
      ∃ st', pass_loop w name st i seq = .ok st' := by
  induction seq with
  | nil => intro w name st i _; exact ⟨st, rfl⟩
  | cons b bs ih =>
    intro w name st i h
    obtain ⟨e, hc⟩ := Option.isSome_iff_exists.mp (h b (by simp))
    obtain ⟨st', hst'⟩ := ih w name (pass_step w name st i e b) (i + 1)
      (fun x hx => h x (by simp [hx]))
    exact ⟨st', by simp only [pass_loop, hc]; exact hst'⟩

lemma pass_loop_find_error (seq : List Nat) :
    ∀ (w : Bool) (name : String) (st : PassState) (i b : Nat),
      seq.find? (fun x => (classify_base x).isNone) = some b →
      pass_loop w name st i seq = .error (.unexpectedBase b name) := by
  induction seq with
  | nil => intro w name st i b h; simp at h
  | cons x bs ih =>
    intro w name st i b h
    cases hc : classify_base x with
    | none =>
      rw [List.find?_cons_of_pos _ (by simp [hc])] at h
      cases h
      simp [pass_loop, hc]
    | some e =>
      rw [List.find?_cons_of_neg _ (by simp [hc])] at h
      simp only [pass_loop, hc]
      exact ih w name _ (i + 1) b h

lemma pass_loop_error_shape (seq : List Nat) :
    ∀ (w : Bool) (name : String) (st : PassState) (i : Nat) (e : ProcessPanic),
      pass_loop w name st i seq = .error e →
      ∃ b, e = .unexpectedBase b name := by
  induction seq with
  | nil => intro w name st i e h; simp only [pass_loop] at h; cases h
  | cons b bs ih =>
    intro w name st i e h
    simp only [pass_loop] at h
    cases hc : classify_base b with
    | none => rw [hc] at h; cases h; exact ⟨b, rfl⟩
    | some eff => rw [hc] at h; exact ih w name _ (i + 1) e h

lemma pass_loop_rows (seq : List Nat) :
    ∀ (name : String) (st st' : PassState) (i : Nat),
      pass_loop true name st i seq = .ok st' →
      st'.non_region = (track_steps name st.non_region i (seq.map tag_non)).1 ∧
        st'.non_rows = st.non_rows ++ (track_steps name st.non_region i (seq.map tag_non)).2 ∧
        st'.soft_region = (track_steps name st.soft_region i (seq.map tag_soft)).1 ∧
        st'.soft_rows = st.soft_rows ++ (track_steps name st.soft_region i (seq.map tag_soft)).2 ∧
        st'.hard_region = (track_steps name st.hard_region i (seq.map tag_hard)).1 ∧
        st'.hard_rows = st.hard_rows ++ (track_steps name st.hard_region i (seq.map tag_hard)).2 := by
  induction seq with
  | nil =>
    intro name st st' i h
    simp only [pass_loop] at h
    cases h
    simp [track_steps]
  | cons b bs ih =>
    intro name st st' i h
    simp only [pass_loop] at h
    cases hc : classify_base b with
    | none => rw [hc] at h; cases h
    | some e =>
      rw [hc] at h
      obtain ⟨h1, h2, h3, h4, h5, h6⟩ := ih name _ st' (i + 1) h
      obtain ⟨tn, ts, th, _⟩ := tag_of_classify b e hc
      simp only [pass_step] at h1 h2 h3 h4 h5 h6
      simp only [List.map_cons, track_steps, tn, ts, th]
      exact ⟨h1, by simp [h2], h3, by simp [h4], h5, by simp [h6]⟩

/-! ## The region tracker emits exactly the maximal runs -/

lemma track_runs (fs : List Bool) :
    (∀ (name : String) (i : Nat),
      (track_steps name none i fs).2 ++
        (update_mask_region (track_steps name none i fs).1 false true name (i + fs.length)).2
        = (runs_from i fs).map (run_to_bed name)) ∧
    (∀ (name : String) (a i : Nat),
      (track_steps name (some a) i fs).2 ++
        (update_mask_region (track_steps name (some a) i fs).1 false true name (i + fs.length)).2
        = (in_run a i fs).map (run_to_bed name)) := by
  induction fs with
  | nil =>
    constructor
    · intro name i
      simp [track_steps, update_mask_region, runs_from]
    · intro name a i
      simp [track_steps, update_mask_region, in_run, run_to_bed, write_bed_record]
  | cons f fs ih =>
    obtain ⟨ih1, ih2⟩ := ih
    have hlen : ∀ i : Nat, i + (f :: fs).length = (i + 1) + fs.length := by
      intro i; simp [List.length_cons]; omega
    constructor
    · intro name i
      rw [hlen]
      cases f
      · simpa [track_steps, update_mask_region, runs_from] using ih1 name (i + 1)
      · simpa [track_steps, update_mask_region, runs_from] using ih2 name i (i + 1)
    · intro name a i
      rw [hlen]
      cases f
      · simpa [track_steps, update_mask_region, in_run, run_to_bed, write_bed_record]
          using ih1 name (i + 1)
      · simpa [track_steps, update_mask_region, in_run] using ih2 name a (i + 1)

lemma runs_ok_mono (l : List (Nat × Nat)) (i j : Nat) (hji : j ≤ i)
    (h : runs_ok i l) : runs_ok j l := by
  cases l with
  | nil => trivial
  | cons p rest =>
    obtain ⟨a, b⟩ := p
    obtain ⟨h1, h2, h3⟩ := h
    exact ⟨le_trans hji h1, h2, h3⟩

lemma runs_shape (fs : List Bool) :
    (∀ i : Nat, runs_ok i (runs_from i fs)) ∧
    (∀ a i : Nat, a < i →
      ∃ b rest, in_run a i fs = (a, b) :: rest ∧ i ≤ b + 1 ∧ a ≤ b ∧
        runs_ok (b + 2) rest) := by
  induction fs with
  | nil =>
    constructor
    · intro i; simp [runs_from, runs_ok]
    · intro a i ha
      exact ⟨i - 1, [], rfl, by omega, by omega, trivial⟩
  | cons f fs ih =>
    obtain ⟨ih1, ih2⟩ := ih
    constructor
    · intro i
      cases f
      · simp only [runs_from]
        exact runs_ok_mono _ _ _ (by omega) (ih1 (i + 1))
      · simp only [runs_from]
        obtain ⟨b, rest, heq, hib, hab, hro⟩ := ih2 i (i + 1) (by omega)
        rw [heq]
        exact ⟨le_refl i, hab, hro⟩
    · intro a i ha
      cases f
      · refine ⟨i - 1, runs_from (i + 1) fs, rfl, by omega, by omega, ?_⟩
        have h1 := ih1 (i + 1)
        have : i - 1 + 2 = i + 1 := by omega
        rw [this]
        exact h1
      · obtain ⟨b, rest, heq, hib, hab, hro⟩ := ih2 a (i + 1) (by omega)
        exact ⟨b, rest, heq, by omega, hab, hro⟩

lemma runs_ok_ordered (name : String) (l : List (Nat × Nat)) :
    ∀ i : Nat, 1 ≤ i → runs_ok i l → bed_rows_ordered (l.map (run_to_bed name)) := by
  induction l with
  | nil => intro i _ _; exact ⟨List.chain'_nil, by simp⟩
  | cons p rest ih =>
    obtain ⟨a, b⟩ := p
    intro i hi hro
    obtain ⟨hia, hab, hrest⟩ := hro
    obtain ⟨ihc, ihm⟩ := ih (b + 2) (by omega) hrest
    constructor
    · rw [List.map_cons]
      refine List.chain'_cons'.mpr ⟨?_, ihc⟩
      intro q hq
      cases rest with
      | nil => simp at hq
      | cons r rs =>
        obtain ⟨a', b'⟩ := r
        obtain ⟨hba', _, _⟩ := hrest
        simp only [List.map_cons, List.head?_cons, Option.mem_def,
          Option.some.injEq] at hq
        subst hq
        simp only [run_to_bed]
        omega
    · intro r hr
      rcases List.mem_cons.mp hr with rfl | hmem
      · simp only [run_to_bed]; omega
      · exact ihm r hmem

/-! ## Counters and checksum do not depend on interval emission -/

/-- The components of the loop state that feed the statistics: the four
counters and the hashed bytes. -/
def counter_proj (st : PassState) : Nat × Nat × Nat × Nat × List Nat :=
  (st.gc_counter, st.non_mask_counter, st.soft_mask_counter, st.hard_mask_counter, st.hashed)

lemma pass_loop_counters_irrel (seq : List Nat) :
    ∀ (st1 st2 : PassState) (i : Nat) (w1 w2 : Bool) (name : String),
      counter_proj st1 = counter_proj st2 →
      (pass_loop w1 name st1 i seq).map counter_proj =
        (pass_loop w2 name st2 i seq).map counter_proj := by
  induction seq with
  | nil =>
    intro st1 st2 i w1 w2 name h
    simp [pass_loop, Except.map, h]
  | cons b bs ih =>
    intro st1 st2 i w1 w2 name h
    simp only [pass_loop]
    cases hc : classify_base b with
    | none => simp
    | some e =>
      apply ih
      simp only [counter_proj, pass_step, Prod.mk.injEq] at h ⊢
      obtain ⟨h1, h2, h3, h4, h5⟩ := h
      exact ⟨by rw [h1], by rw [h2], by rw [h3], by rw [h4], by rw [h5]⟩

/-! ## Anchoring of the name-filter pattern -/

lemma ensure_spec_eq (p : List Char) :
    add_missing_anchors_spec p = ensure_full_match_regex p := by
  unfold add_missing_anchors_spec ensure_full_match_regex
  by_cases hs : p.head? = some '^' <;> by_cases he : p.getLast? = some '$' <;>
    simp [hs, he]

lemma ensure_idem (p : List Char) :
    ensure_full_match_regex (ensure_full_match_regex p) = ensure_full_match_regex p := by
  unfold ensure_full_match_regex
  have key : ∀ l : List Char, ('^' :: (l ++ ['$'])).getLast? = some '$' := by
    intro l
    rw [show ('^' :: (l ++ ['$'])) = (('^' :: l) ++ ['$']) from by simp,
      List.getLast?_concat]
  by_cases hs : p.head? = some '^' <;> by_cases he : p.getLast? = some '$'
  · simp [hs, he]
  · obtain ⟨c, t, rfl⟩ : ∃ c t, p = c :: t := by
      cases p with
      | nil => simp at hs
      | cons c t => exact ⟨c, t, rfl⟩
    have hc : c = '^' := by simpa using hs
    subst hc
    simp [hs, he, List.getLast?_concat, key]
  · have hp : p ≠ [] := by
      intro hnil; rw [hnil] at he; simp at he
    have hgl : ('^' :: p).getLast? = some '$' := by
      cases p with
      | nil => exact absurd rfl hp
      | cons c t => rw [List.getLast?_cons_cons]; exact he
    simp [hs, he, hgl]
  · have h1 : ('^' :: p ++ ['$']).head? = some '^' := rfl
    have h2 : ('^' :: p ++ ['$']).getLast? = some '$' := by
      have : '^' :: p ++ ['$'] = ('^' :: p) ++ ['$'] := by simp
      rw [this, List.getLast?_concat]
    simp [hs, he, h1, h2, key]

/-! ## Lemmas about the `main.rs` loop and driver -/

lemma main_tag_of_classify (b : Nat) (e : MainEffect)
    (h : classify_base_main b = some e) :
    main_tag_soft b = e.softMasking ∧ main_tag_hard b = e.hardMasking := by
  simp [main_tag_soft, main_tag_hard, h]

lemma main_pass_loop_ok_counters (seq : List Nat) :
    ∀ (name : String) (st : MainState) (i : Nat),
      (∀ b ∈ seq, (classify_base_main b).isSome = true) →
      ∃ st', main_pass_loop name st i seq = .ok st' ∧
        st'.soft_mask_counter = st.soft_mask_counter + seq.countP main_tag_soft ∧
        st'.hard_mask_counter = st.hard_mask_counter + seq.countP main_tag_hard := by
  induction seq with
  | nil =>
    intro name st i _
    exact ⟨st, rfl, by simp, by simp⟩
  | cons b bs ih =>
    intro name st i h
    obtain ⟨e, hc⟩ := Option.isSome_iff_exists.mp (h b (by simp))
    obtain ⟨st', hok, hsoft, hhard⟩ :=
      ih name (main_pass_step name st i e) (i + 1) (fun x hx => h x (by simp [hx]))
    obtain ⟨ts, th⟩ := main_tag_of_classify b e hc
    refine ⟨st', by simp only [main_pass_loop, hc]; exact hok, ?_, ?_⟩
    · simp only [hsoft, main_pass_step, List.countP_cons, ts]
      cases e.softMasking <;> (simp; try omega)
    · simp only [hhard, main_pass_step, List.countP_cons, th]
      cases e.hardMasking <;> (simp; try omega)

lemma main_driver_all_ok (recs : List (String × List Nat))
    (h : ∀ r ∈ recs, except_ok (main_process_record r.1 r.2) = true) :
    main_driver recs = .ok (List.replicate recs.length ()) := by
  induction recs with
  | nil => rfl
  | cons r rs ih =>
    have hr := h r (by simp)
    have hrs := ih (fun x hx => h x (by simp [hx]))
    cases hp : main_process_record r.1 r.2 with
    | error e => rw [hp] at hr; simp [except_ok] at hr
    | ok u =>
      simp only [main_driver, hp, hrs, List.length_cons]
      rfl

lemma tag_amb_zero (seq : List Nat)
    (h : ∀ b ∈ seq, (classify_base b).isSome = true) :
    ambiguous_count seq = 0 := by
  induction seq with
  | nil => simp [ambiguous_count]
  | cons b bs ih =>
    have hb := (tag_one b (h b (by simp))).2
    have ihs := ih (fun x hx => h x (by simp [hx]))
    simp_all [ambiguous_count, List.countP_cons]

/-! ## Characterization of a successful `process_fasta_record` run -/

lemma process_ok_full (engine : List Char → String → Bool) (w : Bool)
    (pat : List Char) (name : String) (seq : List Nat)
    (hsup : ∀ b ∈ seq, (classify_base b).isSome = true) (hne : seq ≠ [])
    (hmatch : engine (ensure_full_match_regex pat) name = true) :
    ∃ res, process_fasta_record engine w pat name seq = .ok (some res) ∧
      res.stats =
        ⟨name, seq.countP tag_non, seq.countP tag_soft, seq.countP tag_hard,
          (seq.countP tag_non : ℚ) / (seq.length : ℚ),
          (seq.countP tag_soft : ℚ) / (seq.length : ℚ),
          (seq.countP tag_hard : ℚ) / (seq.length : ℚ),
          (seq.countP tag_gc : ℚ) / (seq.length : ℚ),
          seq.length, sha256hex seq⟩ ∧
      (w = true →
        res.non_masked_rows = track_all name (seq.map tag_non) ∧
          res.soft_masked_rows = track_all name (seq.map tag_soft) ∧
          res.hard_masked_rows = track_all name (seq.map tag_hard)) := by
  obtain ⟨st, hst⟩ := pass_loop_isOk seq w name init_pass_state 1 hsup
  obtain ⟨c2, c3, c4, c1, c5, _⟩ :=
    pass_loop_counters seq w name init_pass_state st 1 hst
  simp only [init_pass_state, List.nil_append, Nat.zero_add] at c1 c2 c3 c4 c5
  have hsum := tag_sum seq hsup
  have hlen : ¬ seq.length = 0 := by
    cases seq with
    | nil => exact absurd rfl hne
    | cons a l => simp
  unfold process_fasta_record
  rw [hmatch]
  simp only [Bool.true_eq_false, if_false, if_neg hlen, hst]
  rw [if_pos (by rw [c2, c3, c4]; exact hsum)]
  refine ⟨_, rfl, ?_, ?_⟩
  · rw [c1, c2, c3, c4, c5]
  · intro hw
    subst hw
    obtain ⟨r1, r2, r3, r4, r5, r6⟩ := pass_loop_rows seq name init_pass_state st 1 hst
    simp only [init_pass_state, List.nil_append] at r1 r2 r3 r4 r5 r6
    refine ⟨?_, ?_, ?_⟩ <;>
      simp [r1, r2, r3, r4, r5, r6, track_all, List.length_map]

/-! ## Claim theorems -/

deriving instance DecidableEq for Except

/-- A regex engine that matches every name; used to instantiate the
abstract external engine at concrete inputs. -/
def accept_all_engine : List Char → String → Bool := fun _ _ => true

/-- C2: for every non-empty record over the recognized alphabet whose name
matches the filter, after the pass completes the returned statistics satisfy
`non_masked + soft_masked + hard_masked - ambiguous_count = length`, where
`ambiguous_count` counts positions tagged both soft- and hard-masked (the
identity is also stated subtraction-free). -/
theorem c2_composition_identity (engine : List Char → String → Bool) (w : Bool)
    (pat : List Char) (name : String) (seq : List Nat)
    (hsup : ∀ b ∈ seq, (classify_base b).isSome = true) (hne : seq ≠ [])
    (hmatch : engine (ensure_full_match_regex pat) name = true) :
    ∃ res, process_fasta_record engine w pat name seq = .ok (some res) ∧
      res.stats.non_masked_bases + res.stats.soft_masked_bases +
          res.stats.hard_masked_bases - ambiguous_count seq =
        res.stats.sequence_length ∧
      res.stats.non_masked_bases + res.stats.soft_masked_bases +
          res.stats.hard_masked_bases =
        res.stats.sequence_length + ambiguous_count seq := by
  obtain ⟨res, hres, hstats, _⟩ := process_ok_full engine w pat name seq hsup hne hmatch
  have hsum := tag_sum seq hsup
  have hamb := tag_amb_zero seq hsup
  refine ⟨res, hres, ?_, ?_⟩ <;> rw [hstats] <;> simp <;> omega

/-- Witness for C2 at the concrete record `("r", "C")`. -/
theorem c2_composition_identity_witness :
    ∃ res, process_fasta_record accept_all_engine true [] "r" [67] = .ok (some res) ∧
      res.stats.non_masked_bases + res.stats.soft_masked_bases +
          res.stats.hard_masked_bases - ambiguous_count [67] =
        res.stats.sequence_length ∧
      res.stats.non_masked_bases + res.stats.soft_masked_bases +
          res.stats.hard_masked_bases =
        res.stats.sequence_length + ambiguous_count [67] :=
  c2_composition_identity accept_all_engine true [] "r" [67]
    (by decide) (by decide) (by decide)

/-- C3: for every non-empty record over the recognized alphabet (name
matching, interval emission enabled), each category's emitted BED rows are
exactly the maximal runs `[a, b]` (1-based inclusive) of that category's
tags, rendered as `(a - 1, b)` in 0-based half-open coordinates, and the
rows are strictly increasing, pairwise non-overlapping and non-empty. -/
theorem c3_interval_runs (engine : List Char → String → Bool)
    (pat : List Char) (name : String) (seq : List Nat)
    (hsup : ∀ b ∈ seq, (classify_base b).isSome = true) (hne : seq ≠ [])
    (hmatch : engine (ensure_full_match_regex pat) name = true) :
    ∃ res, process_fasta_record engine true pat name seq = .ok (some res) ∧
      res.non_masked_rows = (runs_from 1 (seq.map tag_non)).map (run_to_bed name) ∧
      res.soft_masked_rows = (runs_from 1 (seq.map tag_soft)).map (run_to_bed name) ∧
      res.hard_masked_rows = (runs_from 1 (seq.map tag_hard)).map (run_to_bed name) ∧
      bed_rows_ordered res.non_masked_rows ∧
      bed_rows_ordered res.soft_masked_rows ∧
      bed_rows_ordered res.hard_masked_rows := by
  obtain ⟨res, hres, _, hrows⟩ := process_ok_full engine true pat name seq hsup hne hmatch
  obtain ⟨r1, r2, r3⟩ := hrows rfl
  have key : ∀ fs : List Bool,
      track_all name fs = (runs_from 1 fs).map (run_to_bed name) := by
    intro fs
    have h := (track_runs fs).1 name 1
    rw [Nat.add_comm 1 fs.length] at h
    simpa [track_all] using h
  have ord : ∀ fs : List Bool,
      bed_rows_ordered ((runs_from 1 fs).map (run_to_bed name)) := fun fs =>
    runs_ok_ordered name (runs_from 1 fs) 1 (le_refl 1) ((runs_shape fs).1 1)
  rw [key] at r1 r2 r3
  exact ⟨res, hres, r1, r2, r3, r1 ▸ ord _, r2 ▸ ord _, r3 ▸ ord _⟩

/-- Witness for C3 at the concrete record `("r", "CcN")`: one run per
category. -/
theorem c3_interval_runs_witness :
    ∃ res, process_fasta_record accept_all_engine true [] "r" [67, 99, 78] = .ok (some res) ∧
      res.non_masked_rows = (runs_from 1 ([67, 99, 78].map tag_non)).map (run_to_bed "r") ∧
      res.soft_masked_rows = (runs_from 1 ([67, 99, 78].map tag_soft)).map (run_to_bed "r") ∧
      res.hard_masked_rows = (runs_from 1 ([67, 99, 78].map tag_hard)).map (run_to_bed "r") ∧
      bed_rows_ordered res.non_masked_rows ∧
      bed_rows_ordered res.soft_masked_rows ∧
      bed_rows_ordered res.hard_masked_rows :=
  c3_interval_runs accept_all_engine [] "r" [67, 99, 78]
    (by decide) (by decide) (by decide)

/-- C5: an empty record whose name passes the filter yields the all-zero
statistics with the empty-string checksum sentinel and no intervals at all,
for either value of the emission flag. -/
theorem c5_empty_record (engine : List Char → String → Bool) (w : Bool)
    (pat : List Char) (name : String)
    (hmatch : engine (ensure_full_match_regex pat) name = true) :
    process_fasta_record engine w pat name [] =
      .ok (some ⟨⟨name, 0, 0, 0, 0, 0, 0, 0, 0, ""⟩, [], [], []⟩) := by
  unfold process_fasta_record
  rw [hmatch]
  simp

/-- Witness for C5 at the concrete empty record `("r", "")`. -/
theorem c5_empty_record_witness :
    process_fasta_record accept_all_engine true [] "r" [] =
      .ok (some ⟨⟨"r", 0, 0, 0, 0, 0, 0, 0, 0, ""⟩, [], [], []⟩) :=
  c5_empty_record accept_all_engine true [] "r" (by decide)

/-- C10: the failure branch of the `assert!` at `lib.rs` lines 138–143 is
unreachable: no input whatsoever (any engine, pattern, flag, name, byte
sequence) makes `process_fasta_record` return the assertion-failure panic. -/
theorem c10_assertion_unreachable (engine : List Char → String → Bool) (w : Bool)
    (pat : List Char) (name : String) (seq : List Nat) :
    is_assertion_failure (process_fasta_record engine w pat name seq) = false := by
  unfold process_fasta_record
  by_cases hm : engine (ensure_full_match_regex pat) name = false
  · simp [hm, is_assertion_failure]
  · rw [if_neg hm]
    by_cases hlen : seq.length = 0
    · simp [hlen, is_assertion_failure]
    · rw [if_neg hlen]
      cases h : pass_loop w name init_pass_state 1 seq with
      | error e =>
        obtain ⟨b, rfl⟩ := pass_loop_error_shape seq w name init_pass_state 1 e h
        simp [is_assertion_failure]
      | ok st =>
        obtain ⟨c2, c3, c4, _, _, hsup⟩ :=
          pass_loop_counters seq w name init_pass_state st 1 h
        simp only [init_pass_state, Nat.zero_add] at c2 c3 c4
        dsimp only
        rw [if_pos (by rw [c2, c3, c4]; exact tag_sum seq hsup)]
        simp [is_assertion_failure]

/-- C4 (amended): on the first unsupported symbol `b` of a name-matching
record, `process_fasta_record` fails with the panic carrying the offending
byte and the record name — but not the position — and returns no partial
result (the `Except.error` outcome carries nothing else). -/
theorem c4_unsupported_symbol_amended (engine : List Char → String → Bool)
    (w : Bool) (pat : List Char) (name : String) (seq : List Nat) (b : Nat)
    (hmatch : engine (ensure_full_match_regex pat) name = true)
    (hfind : seq.find? (fun x => (classify_base x).isNone) = some b) :
    process_fasta_record engine w pat name seq = .error (.unexpectedBase b name) := by
  have hlen : ¬ seq.length = 0 := by
    cases seq with
    | nil => simp at hfind
    | cons a l => simp
  unfold process_fasta_record
  rw [hmatch]
  simp only [Bool.true_eq_false, if_false, if_neg hlen]
  rw [pass_loop_find_error seq w name init_pass_state 1 b hfind]

/-- Witness for C4 (amended) at the concrete record `("r", "AX")`: `X`
(byte 88) is unsupported. -/
theorem c4_unsupported_symbol_amended_witness :
    process_fasta_record accept_all_engine true [] "r" [65, 88] =
      .error (.unexpectedBase 88 "r") :=
  c4_unsupported_symbol_amended accept_all_engine true [] "r" [65, 88] 88
    (by decide) (by decide)

/-- C4 counterexample: the claim says the error carries the offending
symbol's position, but the panic value does not determine it — the records
`("r", "AXA")` and `("r", "AAX")` have their unique unsupported symbol at
different positions (0-based indices 1 and 2) yet produce identical error
values, and that value consists of the byte and the record name only. -/
theorem c4_counterexample :
    process_fasta_record accept_all_engine true [] "r" [65, 88, 65] =
        process_fasta_record accept_all_engine true [] "r" [65, 65, 88] ∧
      process_fasta_record accept_all_engine true [] "r" [65, 88, 65] =
        .error (.unexpectedBase 88 "r") ∧
      List.findIdx (fun x => (classify_base x).isNone) [65, 88, 65] = 1 ∧
      List.findIdx (fun x => (classify_base x).isNone) [65, 65, 88] = 2 := by
  decide

/-- C1 counterexample: the claim says processing a record containing
lowercase `n` increments both the soft- and the hard-masked counters, but
the cited `process_fasta_record` (`lib.rs` lines 121–124) classifies `n`
exactly like `N`, as hard-masked only: on the record `("r", "n")` the
returned statistics have soft-masked count 0 and hard-masked count 1. -/
theorem c1_counterexample :
    (process_fasta_record accept_all_engine true [] "r" ['n'.toNat]).map
        (Option.map (fun r => (r.stats.soft_masked_bases, r.stats.hard_masked_bases)))
      = .ok (some (0, 1)) := by
  decide

/-- C1 (amended): in the library classifier (`lib.rs`), lowercase `n` and
uppercase `N` are both tagged hard-masked only; the ambiguous tagging the
claim describes (`n` soft- and hard-masked, `N` hard-only) exists only in
the older `main.rs` loop, where a record containing `n` does increment both
the soft- and the hard-masked counters by one for that position. -/
theorem c1_lowercase_n_amended :
    classify_base 'n'.toNat = some ⟨false, false, false, true⟩ ∧
      classify_base 'N'.toNat = some ⟨false, false, false, true⟩ ∧
      classify_base_main 'n'.toNat = some ⟨false, true, true⟩ ∧
      classify_base_main 'N'.toNat = some ⟨false, false, true⟩ ∧
      ∀ (name : String) (xs ys : List Nat),
        (∀ b ∈ xs ++ ys, (classify_base_main b).isSome = true) →
        ∃ st1 st2,
          main_pass_loop name init_main_state 1 (xs ++ 'n'.toNat :: ys) = .ok st1 ∧
            main_pass_loop name init_main_state 1 (xs ++ ys) = .ok st2 ∧
            st1.soft_mask_counter = st2.soft_mask_counter + 1 ∧
            st1.hard_mask_counter = st2.hard_mask_counter + 1 := by
  refine ⟨by decide, by decide, by decide, by decide, ?_⟩
  intro name xs ys h
  have hxs : ∀ b ∈ xs, (classify_base_main b).isSome = true :=
    fun b hb => h b (List.mem_append_left _ hb)
  have hys : ∀ b ∈ ys, (classify_base_main b).isSome = true :=
    fun b hb => h b (List.mem_append_right _ hb)
  have hsup1 : ∀ b ∈ xs ++ 'n'.toNat :: ys, (classify_base_main b).isSome = true := by
    intro b hb
    rcases List.mem_append.mp hb with h1 | h2
    · exact hxs b h1
    · rcases List.mem_cons.mp h2 with rfl | h3
      · decide
      · exact hys b h3
  obtain ⟨st1, hok1, hs1, hh1⟩ :=
    main_pass_loop_ok_counters (xs ++ 'n'.toNat :: ys) name init_main_state 1 hsup1
  obtain ⟨st2, hok2, hs2, hh2⟩ :=
    main_pass_loop_ok_counters (xs ++ ys) name init_main_state 1 h
  have hns : main_tag_soft 'n'.toNat = true := by decide
  have hnh : main_tag_hard 'n'.toNat = true := by decide
  simp only [init_main_state, Nat.zero_add] at hs1 hh1 hs2 hh2
  have es : List.countP main_tag_soft (xs ++ 'n'.toNat :: ys)
      = List.countP main_tag_soft (xs ++ ys) + 1 := by
    simp only [List.countP_append, List.countP_cons, hns]
    simp
    omega
  have eh : List.countP main_tag_hard (xs ++ 'n'.toNat :: ys)
      = List.countP main_tag_hard (xs ++ ys) + 1 := by
    simp only [List.countP_append, List.countP_cons, hnh]
    simp
    omega
  exact ⟨st1, st2, hok1, hok2, by omega, by omega⟩

/-- Witness for C1 (amended) at the concrete `main.rs` record `("r", "Anc")`:
inserting `n` raises both counters by one. -/
theorem c1_lowercase_n_amended_witness :
    ∃ st1 st2,
      main_pass_loop "r" init_main_state 1 ([65] ++ 'n'.toNat :: [99]) = .ok st1 ∧
        main_pass_loop "r" init_main_state 1 ([65] ++ [99]) = .ok st2 ∧
        st1.soft_mask_counter = st2.soft_mask_counter + 1 ∧
        st1.hard_mask_counter = st2.hard_mask_counter + 1 :=
  c1_lowercase_n_amended.2.2.2.2 "r" [65] [99] (by decide)

/-- C6 counterexample: a per-record failure is not isolated by the fan-out
driver: with one well-formed record (whose closure succeeds on its own) and
one record containing an unsupported symbol, the driver aborts with the
panic and returns no results at all for the sibling. -/
theorem c6_counterexample :
    main_driver [("good", [65]), ("bad", [88])] = .error (.unexpectedBase 88) ∧
      main_process_record "good" [65] = .ok () := by
  decide

/-- C6 (amended): the fan-out driver performs no per-record error
isolation: when every record's closure succeeds it returns one `()` per
record, and as soon as any record fails (an unsupported symbol panics
inside the parallel map) the whole run aborts with a panic and no results
are returned. -/
theorem c6_no_error_isolation_amended (recs : List (String × List Nat)) :
    ((∀ r ∈ recs, except_ok (main_process_record r.1 r.2) = true) →
      main_driver recs = .ok (List.replicate recs.length ())) ∧
    ((∃ r ∈ recs, except_ok (main_process_record r.1 r.2) = false) →
      ∃ e, main_driver recs = .error e) := by
  constructor
  · exact main_driver_all_ok recs
  · induction recs with
    | nil =>
      rintro ⟨r, hr, _⟩
      simp at hr
    | cons r rs ih =>
      rintro ⟨x, hx, hfail⟩
      cases hp : main_process_record r.1 r.2 with
      | error e => exact ⟨e, by simp [main_driver, hp]⟩
      | ok u =>
        rcases List.mem_cons.mp hx with rfl | hmem
        · rw [hp] at hfail; simp [except_ok] at hfail
        · obtain ⟨e, he⟩ := ih ⟨x, hmem, hfail⟩
          refine ⟨e, ?_⟩
          simp only [main_driver, hp, he]

/-- Witness for C6 (amended), exercising both conjuncts at concrete record
lists. -/
theorem c6_no_error_isolation_amended_witness :
    main_driver [("good", [65])] = .ok (List.replicate 1 ()) ∧
      ∃ e, main_driver [("good", [65]), ("bad", [88])] = .error e :=
  ⟨(c6_no_error_isolation_amended [("good", [65])]).1 (by decide),
   (c6_no_error_isolation_amended [("good", [65]), ("bad", [88])]).2
     ⟨("bad", [88]), by decide, by decide⟩⟩

/-- C7 counterexample: the claim says the driver returns the collected
statistics sorted by record name, but the driver's returned collection is
independent of the records' names and contents: two single-record inputs
with different names and different statistics produce the identical
collection `[()]`, which therefore carries no statistics and no name
ordering. -/
theorem c7_counterexample :
    main_driver [("a", [67])] = main_driver [("b", [65])] ∧
      main_driver [("a", [67])] = .ok [()] ∧
      ("a" : String) ≠ "b" := by
  decide

/-- C7 (amended): the `main.rs` driver collects no statistics and performs
no sort: on panic-free inputs it returns `List.replicate n ()` — one unit
per record in input order — which is identical for any two same-length
panic-free inputs regardless of names, sequences or their order; the
per-record statistics are only printed, never collected. -/
theorem c7_driver_returns_units_amended (recs1 recs2 : List (String × List Nat))
    (hlen : recs1.length = recs2.length)
    (h1 : ∀ r ∈ recs1, except_ok (main_process_record r.1 r.2) = true)
    (h2 : ∀ r ∈ recs2, except_ok (main_process_record r.1 r.2) = true) :
    main_driver recs1 = .ok (List.replicate recs1.length ()) ∧
      main_driver recs1 = main_driver recs2 := by
  have e1 := main_driver_all_ok recs1 h1
  have e2 := main_driver_all_ok recs2 h2
  exact ⟨e1, by rw [e1, e2, hlen]⟩

/-- Witness for C7 (amended) at two concrete single-record inputs. -/
theorem c7_driver_returns_units_amended_witness :
    main_driver [("a", [67])] = .ok (List.replicate 1 ()) ∧
      main_driver [("a", [67])] = main_driver [("b", [65])] :=
  c7_driver_returns_units_amended [("a", [67])] [("b", [65])] rfl
    (by decide) (by decide)

/-- C8: a record is excluded — `process_fasta_record` returns `Ok(None)`,
not an error — exactly when the external engine rejects its name under the
anchored pattern `ensure_full_match_regex pat` (the spec's notion of fully
matching the configured filter), and filtering with any pattern behaves
identically to filtering with the same pattern with `^`/`$` added at the
missing ends. -/
theorem c8_filter_anchored (engine : List Char → String → Bool) (w : Bool)
    (pat : List Char) (name : String) (seq : List Nat) :
    ((process_fasta_record engine w pat name seq = .ok none) ↔
      engine (ensure_full_match_regex pat) name = false) ∧
    process_fasta_record engine w (add_missing_anchors_spec pat) name seq =
      process_fasta_record engine w pat name seq := by
  constructor
  · constructor
    · intro h
      by_contra hm
      have hm' : engine (ensure_full_match_regex pat) name = true := by
        cases he : engine (ensure_full_match_regex pat) name
        · exact absurd he hm
        · rfl
      unfold process_fasta_record at h
      rw [hm'] at h
      simp only [Bool.true_eq_false, if_false] at h
      by_cases hlen : seq.length = 0
      · rw [if_pos hlen] at h
        simp at h
      · rw [if_neg hlen] at h
        cases hp : pass_loop w name init_pass_state 1 seq with
        | error e => rw [hp] at h; simp at h
        | ok st =>
          rw [hp] at h
          dsimp only at h
          by_cases hcond : st.non_mask_counter + st.soft_mask_counter +
              st.hard_mask_counter = seq.length
          · rw [if_pos hcond] at h; simp at h
          · rw [if_neg hcond] at h; simp at h
    · intro h
      unfold process_fasta_record
      rw [h]
      simp
  · simp only [process_fasta_record, ensure_spec_eq, ensure_idem]

/-- C9: the interval-emission configuration has no effect on the computed
statistics: for every engine, pattern, name and sequence, the statistics
component of the processor's outcome (including success/failure and the
panic value) is identical with emission enabled and disabled; only the
interval rows differ. -/
theorem c9_stats_emission_independent (engine : List Char → String → Bool)
    (pat : List Char) (name : String) (seq : List Nat) :
    result_stats (process_fasta_record engine true pat name seq) =
      result_stats (process_fasta_record engine false pat name seq) := by
  unfold process_fasta_record
  by_cases hm : engine (ensure_full_match_regex pat) name = false
  · simp [hm]
  · rw [if_neg hm, if_neg hm]
    by_cases hlen : seq.length = 0
    · rw [if_pos hlen, if_pos hlen]
    · rw [if_neg hlen, if_neg hlen]
      have W := pass_loop_counters_irrel seq init_pass_state init_pass_state 1
        true false name rfl
      cases h1 : pass_loop true name init_pass_state 1 seq with
      | error e1 =>
        cases h2 : pass_loop false name init_pass_state 1 seq with
        | error e2 =>
          rw [h1, h2] at W
          simp only [Except.map] at W
          injection W with hW
          rw [hW]
        | ok st2 =>
          rw [h1, h2] at W
          simp [Except.map] at W
      | ok st1 =>
        cases h2 : pass_loop false name init_pass_state 1 seq with
        | error e2 =>
          rw [h1, h2] at W
          simp [Except.map] at W
        | ok st2 =>
          rw [h1, h2] at W
          simp only [Except.map] at W
          injection W with hW
          simp only [counter_proj, Prod.mk.injEq] at hW
          obtain ⟨hg, hn, hs, hh, hhash⟩ := hW
          dsimp only
          rw [hn, hs, hh, hg, hhash]
          by_cases hcond : st2.non_mask_counter + st2.soft_mask_counter +
              st2.hard_mask_counter = seq.length
          · rw [if_pos hcond, if_pos hcond]
            rfl
          · rw [if_neg hcond, if_neg hcond]
